import Mathlib

/-!
Verification development for the `tcp_peer` repository: a pair of
near-duplicate C++ programs (`src/tcp_peer.cpp`, line-oriented, and the
keystroke-oriented companion) implementing symmetric line-delimited
messaging between two peers over one TCP connection.

Embedded here, faithful to the source:
* the Framer: the inbound `find('\n')` extraction loop of `main`;
* `send_all_bytes`: the must-fully-send write loop;
* `connect_to_peer` / `listen_and_accept`: the connection establishers,
  with their system-call outcomes abstracted as explicit parameters;
* the Duplex Pump session loop of `main`, driven by an explicit list of
  readiness/IO events, recording exit code, sends and printed messages;
* the argument dispatch of `main` (`--listen` / `--connect` / usage).

Bytes are `Nat` (a byte value); the newline delimiter is the byte 10.
-/

namespace TcpPeer

/-- Embedding of `incoming_buffer.find('\n')` from `main`
(`src/tcp_peer.cpp`): index of the first newline byte (10) in the
buffer, or `none` (`std::string::npos`) when absent. -/
def findNL : List Nat → Option Nat
  | [] => none
  | b :: t => if b = 10 then some 0 else (findNL t).map (· + 1)

theorem findNL_some_lt : ∀ {l : List Nat} {i : Nat}, findNL l = some i → i < l.length := by
  intro l
  induction l with
  | nil => intro i h; simp [findNL] at h
  | cons b t ih =>
    intro i h
    simp only [findNL] at h
    by_cases hb : b = 10
    · rw [if_pos hb] at h
      have : i = 0 := by injection h with h; omega
      subst this
      simp
    · rw [if_neg hb] at h
      cases hm : findNL t with
      | none => rw [hm] at h; simp at h
      | some j =>
        rw [hm] at h
        simp at h
        have := ih hm
        simp
        omega

/-- One bounded unrolling of the `while (true)` extraction loop of `main`
(`src/tcp_peer.cpp` lines 204-210), with an explicit iteration bound
`fuel`. Each loop body: find the first `'\n'`; if absent
(`std::string::npos`) stop; otherwise yield `incoming_buffer.substr(0, pos)`
as one message and continue on `incoming_buffer.erase(0, pos + 1)`.
Each iteration removes at least one byte from the buffer, so a fuel of
the buffer's length makes this exactly the source's unbounded loop. -/
def extractLoop : Nat → List Nat → List (List Nat) × List Nat
  | 0, buf => ([], buf)
  | fuel + 1, buf =>
    match findNL buf with
    | none => ([], buf)
    | some pos =>
      let r := extractLoop fuel (buf.drop (pos + 1))
      (buf.take pos :: r.1, r.2)

/-- Embedding of the inbound framing loop of `main`
(`src/tcp_peer.cpp` lines 204-210): repeatedly find the first `'\n'`,
cut the buffer there, yield the bytes before it as one message, drop
the prefix including the delimiter, and stop when no delimiter remains,
returning the extracted messages in order together with the remaining
buffer. -/
def extractMessages (buf : List Nat) : List (List Nat) × List Nat :=
  extractLoop buf.length buf

theorem extractLoop_congr : ∀ (f1 : Nat) (f2 : Nat) (buf : List Nat),
    buf.length ≤ f1 → buf.length ≤ f2 → extractLoop f1 buf = extractLoop f2 buf := by
  intro f1
  induction f1 with
  | zero =>
    intro f2 buf h1 h2
    have hb : buf = [] := List.eq_nil_of_length_eq_zero (Nat.le_zero.mp h1)
    subst hb
    cases f2 <;> simp [extractLoop, findNL]
  | succ f ih =>
    intro f2 buf h1 h2
    cases f2 with
    | zero =>
      have hb : buf = [] := List.eq_nil_of_length_eq_zero (Nat.le_zero.mp h2)
      subst hb
      simp [extractLoop, findNL]
    | succ f2 =>
      simp only [extractLoop]
      cases hf : findNL buf with
      | none => rfl
      | some pos =>
        have hlt := findNL_some_lt hf
        have hd1 : (buf.drop (pos + 1)).length ≤ f := by
          simp only [List.length_drop]; omega
        have hd2 : (buf.drop (pos + 1)).length ≤ f2 := by
          simp only [List.length_drop]; omega
        simp only [ih f2 _ hd1 hd2]

theorem extract_eq_of_findNL_none {buf : List Nat} (h : findNL buf = none) :
    extractMessages buf = ([], buf) := by
  unfold extractMessages
  cases buf.length <;> simp [extractLoop, h]

theorem extract_eq_of_findNL_some {buf : List Nat} {pos : Nat} (h : findNL buf = some pos) :
    extractMessages buf =
      (buf.take pos :: (extractMessages (buf.drop (pos + 1))).1,
        (extractMessages (buf.drop (pos + 1))).2) := by
  have hlt := findNL_some_lt h
  have hd : (buf.drop (pos + 1)).length ≤ buf.length - 1 := by
    simp only [List.length_drop]; omega
  unfold extractMessages
  rw [show buf.length = (buf.length - 1) + 1 from by omega]
  simp only [extractLoop, h]
  rw [extractLoop_congr (buf.length - 1) (buf.drop (pos + 1)).length _ hd (le_refl _)]

theorem extractMessages_nil : extractMessages [] = ([], []) :=
  extract_eq_of_findNL_none rfl

theorem extractMessages_cons_nl (t : List Nat) :
    extractMessages (10 :: t) = ([] :: (extractMessages t).1, (extractMessages t).2) := by
  have h : findNL (10 :: t) = some 0 := by simp [findNL]
  rw [extract_eq_of_findNL_some h]
  simp

theorem extractMessages_cons (b : Nat) (t : List Nat) (hb : b ≠ 10) :
    extractMessages (b :: t) =
      match extractMessages t with
      | ([], r) => ([], b :: r)
      | (m :: ms, r) => ((b :: m) :: ms, r) := by
  cases ht : findNL t with
  | none =>
    have h : findNL (b :: t) = none := by simp [findNL, hb, ht]
    rw [extract_eq_of_findNL_none h, extract_eq_of_findNL_none ht]
  | some pos =>
    have h : findNL (b :: t) = some (pos + 1) := by simp [findNL, hb, ht]
    rw [extract_eq_of_findNL_some h, extract_eq_of_findNL_some ht]
    simp

theorem extractMessages_cons_of_nil {b : Nat} {t r : List Nat} (hb : b ≠ 10)
    (h : extractMessages t = ([], r)) : extractMessages (b :: t) = ([], b :: r) := by
  rw [extractMessages_cons b t hb, h]

theorem extractMessages_cons_of_cons {b : Nat} {t m r : List Nat} {ms : List (List Nat)}
    (hb : b ≠ 10) (h : extractMessages t = (m :: ms, r)) :
    extractMessages (b :: t) = ((b :: m) :: ms, r) := by
  rw [extractMessages_cons b t hb, h]

theorem findNL_eq_none_iff {l : List Nat} : findNL l = none ↔ 10 ∉ l := by
  induction l with
  | nil => simp [findNL]
  | cons b t ih =>
    by_cases hb : b = 10
    · subst hb; simp [findNL]
    · simp [findNL, hb, ih, Ne.symm hb]

theorem extract_of_no_nl {buf : List Nat} (h : 10 ∉ buf) : extractMessages buf = ([], buf) :=
  extract_eq_of_findNL_none (findNL_eq_none_iff.mpr h)

theorem extract_remainder_no_nl (buf : List Nat) : 10 ∉ (extractMessages buf).2 := by
  induction buf with
  | nil => rw [extractMessages_nil]; simp
  | cons b t ih =>
    by_cases hb : b = 10
    · subst hb; rw [extractMessages_cons_nl]; exact ih
    · rcases h : extractMessages t with ⟨ms, r⟩
      rw [h] at ih
      cases ms with
      | nil =>
        rw [extractMessages_cons_of_nil hb h]
        simp at ih ⊢
        exact ⟨fun hh => hb hh.symm, ih⟩
      | cons m ms =>
        rw [extractMessages_cons_of_cons hb h]
        simpa using ih

theorem extract_append (a b : List Nat) :
    extractMessages (a ++ b) =
      ((extractMessages a).1 ++ (extractMessages ((extractMessages a).2 ++ b)).1,
        (extractMessages ((extractMessages a).2 ++ b)).2) := by
  induction a generalizing b with
  | nil => simp [extractMessages_nil]
  | cons c t ih =>
    by_cases hc : c = 10
    · subst hc
      rw [List.cons_append, extractMessages_cons_nl, ih, extractMessages_cons_nl]
      simp
    · rcases ht : extractMessages t with ⟨ms, r⟩
      have ihb := ih b
      rw [ht] at ihb
      cases ms with
      | nil =>
        have hct : extractMessages (c :: t) = ([], c :: r) :=
          extractMessages_cons_of_nil hc ht
        rw [List.cons_append, hct]
        simp only [List.nil_append] at ihb ⊢
        rcases hu : extractMessages (r ++ b) with ⟨u1, u2⟩
        rw [hu] at ihb
        rw [List.cons_append]
        cases u1 with
        | nil =>
          rw [extractMessages_cons_of_nil hc ihb, extractMessages_cons_of_nil hc hu]
        | cons m ms =>
          rw [extractMessages_cons_of_cons hc ihb, extractMessages_cons_of_cons hc hu]
      | cons m ms =>
        have hct : extractMessages (c :: t) = ((c :: m) :: ms, r) :=
          extractMessages_cons_of_cons hc ht
        rw [List.cons_append, hct]
        rcases hu : extractMessages (r ++ b) with ⟨u1, u2⟩
        rw [hu] at ihb
        have htb : extractMessages (t ++ b) = (m :: (ms ++ u1), u2) := by
          rw [ihb]; simp
        rw [extractMessages_cons_of_cons hc htb]
        simp

/-- Reinsert the stripped `'\n'` delimiter after each extracted message
(the inverse direction of the framing rule: each wire message is its
payload followed by the byte 10). -/
def withDelims (ms : List (List Nat)) : List Nat := (ms.map (fun m => m ++ [10])).flatten

theorem extract_reconstruct (buf : List Nat) :
    withDelims (extractMessages buf).1 ++ (extractMessages buf).2 = buf := by
  induction buf with
  | nil => simp [extractMessages_nil, withDelims]
  | cons b t ih =>
    by_cases hb : b = 10
    · subst hb
      rw [extractMessages_cons_nl]
      simp only [withDelims, List.map_cons, List.flatten_cons] at ih ⊢
      simpa using ih
    · rcases ht : extractMessages t with ⟨ms, r⟩
      rw [ht] at ih
      cases ms with
      | nil =>
        rw [extractMessages_cons_of_nil hb ht]
        simp [withDelims] at ih ⊢
        exact ih
      | cons m ms =>
        rw [extractMessages_cons_of_cons hb ht]
        simp [withDelims] at ih ⊢
        simpa using ih

/-- Embedding of the receive path across several socket reads: for each
received chunk, `main` appends it to `incoming_buffer` and runs the
extraction loop; the messages printed across the reads are concatenated
in arrival order and the final buffer is returned
(`src/tcp_peer.cpp` lines 200-210, once per `recv`). -/
def feedIncremental : List (List Nat) → List Nat → List (List Nat) × List Nat
  | [], buf => ([], buf)
  | c :: cs, buf =>
    let step := extractMessages (buf ++ c)
    let rest := feedIncremental cs step.2
    (step.1 ++ rest.1, rest.2)

theorem feedIncremental_eq (chunks : List (List Nat)) (buf : List Nat) (hbuf : 10 ∉ buf) :
    feedIncremental chunks buf = extractMessages (buf ++ chunks.flatten) := by
  induction chunks generalizing buf with
  | nil => simp [feedIncremental, extract_of_no_nl hbuf]
  | cons c cs ih =>
    simp only [feedIncremental, List.flatten_cons]
    rw [ih _ (extract_remainder_no_nl (buf ++ c)), ← List.append_assoc,
      extract_append (buf ++ c) cs.flatten]

/-- One bounded unrolling of the `while (left > 0)` loop of
`send_all_bytes` (`src/tcp_peer.cpp` lines 32-47). The primitive `prim`
models a `send` call that succeeds on every call: given the pending
suffix it returns how many leading bytes were transmitted; a result of
`0` models `send` returning 0 ("peer closed unexpectedly"), upon which
the source returns `false` (the `EINTR` and error branches of the
source lie outside the no-error assumption of the property checked
here). Result: the source's `bool` return, the bytes handed to the
primitive in order, and the number of `send` calls made. `fuel` bounds
the iterations; `data.length` suffices because every continuing
iteration transmits at least one byte. -/
def sendLoop (prim : List Nat → Nat) : Nat → List Nat → Bool × List Nat × Nat
  | _, [] => (true, [], 0)
  | 0, _ :: _ => (true, [], 0)
  | fuel + 1, b :: t =>
    let n := prim (b :: t)
    if n = 0 then (false, [], 1)
    else
      let r := sendLoop prim fuel ((b :: t).drop n)
      (r.1, (b :: t).take n ++ r.2.1, r.2.2 + 1)

/-- Embedding of `send_all_bytes` (`src/tcp_peer.cpp` lines 32-47,
identical in the keystroke-oriented companion): loop until every byte
of `data` has been handed to `send`. -/
def send_all_bytes (prim : List Nat → Nat) (data : List Nat) : Bool × List Nat × Nat :=
  sendLoop prim data.length data

/-- The outcome of one `accept()` call as seen by `listen_and_accept`:
success, failure with `errno = EINTR` (signal interruption), or failure
with any other `errno`. -/
inductive AcceptOutcome
  | accepted
  | errInterrupted
  | errOther
deriving DecidableEq, Repr

/-- The port value stored into `addr.sin_port`: the source narrows the
parsed `int` through `htons(static_cast<uint16_t>(port))`
(`src/tcp_peer.cpp` lines 62 and 99); the unsigned 16-bit conversion is
reduction modulo 2^16, and the `htons` byte-order swap does not change
which port is addressed. -/
def portUsed (port : Int) : Nat := (port % 65536).toNat

/-- Result of a connection establisher: whether a connected socket was
returned (the source returns a non-negative fd on success, -1 on
failure), and the port value placed into the socket address, when
execution reached the address setup. -/
structure EstablishResult where
  connected : Bool
  sinPort : Option Nat
deriving DecidableEq, Repr

/-- Embedding of `connect_to_peer` (`src/tcp_peer.cpp` lines 50-79).
The outcomes of the `socket`, `inet_pton` and `connect` calls are
explicit parameters; the early returns mirror the source: socket
failure aborts before the address is filled; `inet_pton` or `connect`
failure closes the socket and returns -1. -/
def connect_to_peer (port : Int) (socketOk ptonOk connOk : Bool) : EstablishResult :=
  if !socketOk then ⟨false, none⟩
  else if !ptonOk then ⟨false, some (portUsed port)⟩
  else if !connOk then ⟨false, some (portUsed port)⟩
  else ⟨true, some (portUsed port)⟩

/-- Embedding of `listen_and_accept` (`src/tcp_peer.cpp` lines 82-135).
Outcomes of `socket`, `bind` and `listen` are explicit flags; `accepts`
lists the outcomes successive `accept` calls would produce. The source
calls `accept` exactly once and treats any negative return as failure
without inspecting `errno`, so only the first element is consulted. -/
def listen_and_accept (port : Int) (socketOk bindOk listenOk : Bool)
    (accepts : List AcceptOutcome) : EstablishResult :=
  if !socketOk then ⟨false, none⟩
  else if !bindOk then ⟨false, some (portUsed port)⟩
  else if !listenOk then ⟨false, some (portUsed port)⟩
  else
    match accepts.head? with
    | some AcceptOutcome.accepted => ⟨true, some (portUsed port)⟩
    | _ => ⟨false, some (portUsed port)⟩

/-- One observable step of the environment driving the session loop of
`main` (`src/tcp_peer.cpp` lines 155-212): the readiness wait and the
subsequent local-input or socket action of one pass, linearized (an
iteration in which `select` flags both descriptors is two consecutive
events, stdin first, as in the source). -/
inductive Event
  /-- `select` returned -1 with `errno = EINTR`: retried. -/
  | selectInterrupted
  /-- `select` returned -1 with any other `errno`. -/
  | selectError
  /-- stdin ready, `std::getline` failed: local end-of-input. -/
  | stdinEof
  /-- stdin ready, `std::getline` produced `line` (delimiter already
      stripped); `sendOk` is what `send_all_bytes` returned on
      `line ++ [10]`. -/
  | stdinLine (line : List Nat) (sendOk : Bool)
  /-- socket ready, `recv` returned -1 with `errno = EINTR`: retried. -/
  | recvInterrupted
  /-- socket ready, `recv` returned -1 with another `errno`. -/
  | recvError
  /-- socket ready, `recv` returned 0: the peer closed. -/
  | recvClosed
  /-- socket ready, `recv` produced the bytes `chunk`. -/
  | recvData (chunk : List Nat)
deriving DecidableEq, Repr

/-- What a run of the session loop did: `exitCode` is `some c` when the
loop was left and `main` returned `c` (`none` when the event trace ran
out with the loop still running); `sent` lists the byte sequences
passed to `send_all_bytes` and `printed` the messages emitted to
output, both in order. -/
structure SessionResult where
  exitCode : Option Nat
  sent : List (List Nat)
  printed : List (List Nat)
deriving DecidableEq, Repr

/-- Embedding of the session loop of `main` (`src/tcp_peer.cpp` lines
155-215; the `--connect` loop at lines 228-280 is identical): process
events until a terminal condition breaks the loop, after which `main`
closes the socket and returns 0 — every `break` in the source falls
through to `return 0`. -/
def runSession (buf : List Nat) : List Event → SessionResult
  | [] => ⟨none, [], []⟩
  | e :: es =>
    match e with
    | Event.selectInterrupted => runSession buf es
    | Event.selectError => ⟨some 0, [], []⟩
    | Event.stdinEof => ⟨some 0, [], []⟩
    | Event.stdinLine line ok =>
      if ok then
        let r := runSession buf es
        ⟨r.exitCode, (line ++ [10]) :: r.sent, r.printed⟩
      else ⟨some 0, [line ++ [10]], []⟩
    | Event.recvInterrupted => runSession buf es
    | Event.recvError => ⟨some 0, [], []⟩
    | Event.recvClosed => ⟨some 0, [], []⟩
    | Event.recvData chunk =>
      let step := extractMessages (buf ++ chunk)
      let r := runSession step.2 es
      ⟨r.exitCode, r.sent, step.1 ++ r.printed⟩

/-- The dispatch of `main` over `argv` (`src/tcp_peer.cpp` lines 143,
217 and 283-288): `--listen` needs at least one further argument,
`--connect` at least two; anything else is the usage path. The list is
`argv[1..]`; extra trailing arguments are ignored as in the source. -/
inductive ParsedCommand
  | listen (portArg : String)
  | connect (host : String) (portArg : String)
  | malformed
deriving DecidableEq, Repr

def parseArgs : List String → ParsedCommand
  | cmd :: a :: rest =>
    if cmd = "--listen" then ParsedCommand.listen a
    else if cmd = "--connect" then
      match rest with
      | b :: _ => ParsedCommand.connect a b
      | [] => ParsedCommand.malformed
    else ParsedCommand.malformed
  | _ => ParsedCommand.malformed

/-- The environment of one process run: outcomes of the setup system
calls and the session's readiness/IO events. -/
structure World where
  socketOk : Bool
  bindOk : Bool
  listenOk : Bool
  accepts : List AcceptOutcome
  ptonOk : Bool
  connOk : Bool
  events : List Event
deriving DecidableEq, Repr

/-- Observable behavior of one run of `main`: its return status
(`none` when the session trace was exhausted with the loop running),
whether usage text was printed to the error stream, whether any socket
system call was performed, and the session's sends and printed
messages. -/
structure MainResult where
  exitCode : Option Nat
  usagePrinted : Bool
  networkUsed : Bool
  sent : List (List Nat)
  printed : List (List Nat)
deriving DecidableEq, Repr

/-- Embedding of `main` (`src/tcp_peer.cpp` lines 139-288). `stoi`
stands for `std::stoi` applied to the port argument. On the two
recognized command forms the corresponding establisher runs (so a
socket system call happens); if it fails, `main` returns 1; otherwise
the session loop runs on an empty `incoming_buffer` and `main` returns
its result. On any other argv the usage text goes to the error stream
and `main` returns 1 without touching the network. -/
def runMain (args : List String) (stoi : String → Int) (w : World) : MainResult :=
  match parseArgs args with
  | ParsedCommand.listen p =>
    if (listen_and_accept (stoi p) w.socketOk w.bindOk w.listenOk w.accepts).connected then
      let r := runSession [] w.events
      ⟨r.exitCode, false, true, r.sent, r.printed⟩
    else ⟨some 1, false, true, [], []⟩
  | ParsedCommand.connect _ p =>
    if (connect_to_peer (stoi p) w.socketOk w.ptonOk w.connOk).connected then
      let r := runSession [] w.events
      ⟨r.exitCode, false, true, r.sent, r.printed⟩
    else ⟨some 1, false, true, [], []⟩
  | ParsedCommand.malformed => ⟨some 1, true, false, [], []⟩

theorem extract_no_nl_append_nl {a : List Nat} (b : List Nat) (ha : 10 ∉ a) :
    extractMessages (a ++ 10 :: b) = (a :: (extractMessages b).1, (extractMessages b).2) := by
  induction a with
  | nil => simpa using extractMessages_cons_nl b
  | cons c t ih =>
    have hc : c ≠ 10 := by intro h; exact ha (by simp [h])
    have ht : 10 ∉ t := fun h => ha (by simp [h])
    rw [List.cons_append, extractMessages_cons_of_cons hc (ih ht)]

theorem sendCalls_arith (k len : Nat) (hk : 0 < k) (hlen : 0 < len) :
    (len - min k len + k - 1) / k + 1 = (len + k - 1) / k := by
  by_cases hle : len ≤ k
  · rw [show min k len = len from by omega]
    rw [show len - len + k - 1 = k - 1 from by omega,
      Nat.div_eq_of_lt (by omega : k - 1 < k),
      show len + k - 1 = (len - 1) + k from by omega,
      Nat.add_div_right _ hk,
      Nat.div_eq_of_lt (by omega : len - 1 < k)]
  · rw [show min k len = k from by omega]
    rw [show len - k + k - 1 = len - 1 from by omega,
      show len + k - 1 = (len - 1) + k from by omega,
      Nat.add_div_right _ hk]

theorem sendLoop_min (k : Nat) (hk : 0 < k) :
    ∀ (fuel : Nat) (data : List Nat), data.length ≤ fuel →
      sendLoop (fun p => min k p.length) fuel data =
        (true, data, (data.length + k - 1) / k) := by
  intro fuel
  induction fuel with
  | zero =>
    intro data h
    have hd : data = [] := List.eq_nil_of_length_eq_zero (Nat.le_zero.mp h)
    subst hd
    simp [sendLoop, Nat.div_eq_of_lt (by omega : k - 1 < k)]
  | succ fuel ih =>
    intro data h
    cases data with
    | nil => simp [sendLoop, Nat.div_eq_of_lt (by omega : k - 1 < k)]
    | cons b t =>
      simp only [sendLoop]
      have hne : ¬ (min k (b :: t).length = 0) := by
        simp only [List.length_cons]
        omega
      rw [if_neg hne]
      have hdl : ((b :: t).drop (min k (b :: t).length)).length ≤ fuel := by
        simp only [List.length_drop, List.length_cons] at h ⊢
        omega
      rw [ih _ hdl]
      simp only [List.length_drop, List.take_append_drop]
      refine congrArg _ (congrArg _ ?_)
      exact sendCalls_arith k (b :: t).length hk (by simp)

/-- Claim C1: Framing idempotence — splitting a byte sequence `S` into
non-empty chunks, appending the chunks one at a time to the (initially
empty) inbound buffer, and running the framer's extraction after each
append, yields exactly the same ordered sequence of messages (and the
same final buffer) as appending all of `S` at once and extracting
once. -/
theorem framing_idempotent (chunks : List (List Nat))
    (hne : ∀ c ∈ chunks, c ≠ []) :
    feedIncremental chunks [] = extractMessages chunks.flatten := by
  simpa using feedIncremental_eq chunks [] (by simp)

theorem framing_idempotent_witness :
    (∀ c ∈ [[104], [105, 10], [112]], c ≠ ([] : List Nat)) ∧
      feedIncremental [[104], [105, 10], [112]] [] =
        extractMessages ([[104], [105, 10], [112]] : List (List Nat)).flatten :=
  ⟨by decide, framing_idempotent [[104], [105, 10], [112]] (by decide)⟩

/-- Claim C2: No data loss or duplication — for every input byte
sequence fed to the framer, the concatenation of all extracted
messages with a `'\n'` delimiter reinserted after each one, followed
by the final undelimited remainder left in the buffer, equals the
original input exactly. -/
theorem no_data_loss (input : List Nat) :
    withDelims (extractMessages input).1 ++ (extractMessages input).2 = input :=
  extract_reconstruct input

/-- Claim C3: Inbound buffer invariant — after every invocation of the
framer's extraction the remaining buffer contains no `'\n'` byte, so no
complete message is ever left at rest between framer invocations; since
the receive path starts from an empty buffer and every later at-rest
buffer is the remainder of an extraction, this holds in every reachable
state of the receive path. -/
theorem inbound_buffer_invariant (buf : List Nat) : 10 ∉ (extractMessages buf).2 :=
  extract_remainder_no_nl buf

/-- Claim C4: Must-fully-send — against a send primitive that
successfully transmits `min k left` bytes per call (at most `k` per
call, no interruptions or errors), with `0 < k <` the message length,
`send_all_bytes` issues exactly `ceil(N/k)` send calls, hands all `N`
bytes to the primitive in order, and returns success. -/
theorem must_fully_send (k : Nat) (data : List Nat)
    (hk : 0 < k) (hkN : k < data.length) :
    send_all_bytes (fun pending => min k pending.length) data =
      (true, data, (data.length + k - 1) / k) := by
  unfold send_all_bytes
  exact sendLoop_min k hk data.length data (le_refl _)

theorem must_fully_send_witness :
    0 < 2 ∧ 2 < ([1, 2, 3] : List Nat).length ∧
      send_all_bytes (fun pending => min 2 pending.length) [1, 2, 3] =
        (true, [1, 2, 3], 2) :=
  ⟨by decide, by decide, must_fully_send 2 [1, 2, 3] (by decide) (by decide)⟩

theorem runSession_exit_zero : ∀ (es : List Event) (buf : List Nat) (c : Nat),
    (runSession buf es).exitCode = some c → c = 0 := by
  intro es
  induction es with
  | nil => intro buf c h; simp [runSession] at h
  | cons e es ih =>
    intro buf c h
    cases e with
    | selectInterrupted => exact ih _ _ h
    | selectError => simp [runSession] at h; omega
    | stdinEof => simp [runSession] at h; omega
    | stdinLine line ok =>
      cases ok with
      | false => simp [runSession] at h; omega
      | true =>
        simp only [runSession, if_true] at h
        exact ih _ _ h
    | recvInterrupted => exact ih _ _ h
    | recvError => simp [runSession] at h; omega
    | recvClosed => simp [runSession] at h; omega
    | recvData chunk =>
      simp only [runSession] at h
      exact ih _ _ h

/-- Whether the run's command dispatch reached a connection establisher
and that establisher failed (in which case `main` returns 1 before the
session loop starts). -/
def setupFailed (args : List String) (stoi : String → Int) (w : World) : Bool :=
  match parseArgs args with
  | ParsedCommand.listen p =>
    !(listen_and_accept (stoi p) w.socketOk w.bindOk w.listenOk w.accepts).connected
  | ParsedCommand.connect _ p =>
    !(connect_to_peer (stoi p) w.socketOk w.ptonOk w.connOk).connected
  | ParsedCommand.malformed => false

/-- Claim C5 counterexample: a run whose setup succeeds and whose
session ends in a send failure — a session-fatal error — exits with
status 0, not 1: every `break` of the session loop in the source falls
through to `return 0`. -/
theorem exit_code_counterexample :
    (runMain ["--listen", "3333"] (fun _ => 3333)
        ⟨true, true, true, [AcceptOutcome.accepted], true, true,
          [Event.stdinLine [104] false]⟩).exitCode = some 0 ∧ (0 : Nat) ≠ 1 :=
  ⟨by decide, by decide⟩

/-- Claim C5 as amended: whenever the process exits, it exits with
status 1 exactly on a malformed invocation or a setup error, and with
status 0 otherwise — that is, on every session termination, clean ones
(peer disconnect, local end-of-input) and session-fatal ones (send
failure, unrecoverable recv or readiness-wait error) alike. -/
theorem exit_codes_amended (args : List String) (stoi : String → Int) (w : World) (c : Nat)
    (h : (runMain args stoi w).exitCode = some c) :
    (c = 1 ↔ (parseArgs args = ParsedCommand.malformed ∨ setupFailed args stoi w = true)) ∧
      (c = 0 ↔ (parseArgs args ≠ ParsedCommand.malformed ∧ setupFailed args stoi w = false)) := by
  unfold runMain at h
  unfold setupFailed
  cases hp : parseArgs args with
  | malformed =>
    rw [hp] at h
    have hc1 : c = 1 := by simp at h; omega
    subst hc1
    simp
  | listen p =>
    rw [hp] at h
    by_cases hc :
        (listen_and_accept (stoi p) w.socketOk w.bindOk w.listenOk w.accepts).connected = true
    · simp only [hc, if_true] at h
      have h0 := runSession_exit_zero w.events [] c h
      subst h0
      simp [hc]
    · rw [Bool.not_eq_true] at hc
      simp only [hc, Bool.false_eq_true, if_false] at h
      have hc1 : c = 1 := by simp at h; omega
      subst hc1
      simp [hc]
  | connect a p =>
    rw [hp] at h
    by_cases hc : (connect_to_peer (stoi p) w.socketOk w.ptonOk w.connOk).connected = true
    · simp only [hc, if_true] at h
      have h0 := runSession_exit_zero w.events [] c h
      subst h0
      simp [hc]
    · rw [Bool.not_eq_true] at hc
      simp only [hc, Bool.false_eq_true, if_false] at h
      have hc1 : c = 1 := by simp at h; omega
      subst hc1
      simp [hc]

theorem exit_codes_amended_witness :
    ((0 : Nat) = 1 ↔ (parseArgs ["--listen", "7000"] = ParsedCommand.malformed ∨
        setupFailed ["--listen", "7000"] (fun _ => 7000)
          ⟨true, true, true, [AcceptOutcome.accepted], true, true, [Event.recvClosed]⟩ = true)) ∧
      ((0 : Nat) = 0 ↔ (parseArgs ["--listen", "7000"] ≠ ParsedCommand.malformed ∧
        setupFailed ["--listen", "7000"] (fun _ => 7000)
          ⟨true, true, true, [AcceptOutcome.accepted], true, true, [Event.recvClosed]⟩ = false)) :=
  exit_codes_amended ["--listen", "7000"] (fun _ => 7000)
    ⟨true, true, true, [AcceptOutcome.accepted], true, true, [Event.recvClosed]⟩ 0 (by decide)

/-- Claim C6 counterexample: an accept interrupted by signal delivery
is not retried — with the outcome sequence "first accept interrupted, a
second accept would succeed", `listen_and_accept` fails, whereas with
the interruption removed it connects; the interruption is therefore an
error, not transparently retried. -/
theorem accept_retry_counterexample :
    (listen_and_accept 3333 true true true
        [AcceptOutcome.errInterrupted, AcceptOutcome.accepted]).connected = false ∧
      (listen_and_accept 3333 true true true [AcceptOutcome.accepted]).connected = true :=
  ⟨by decide, by decide⟩

/-- Claim C6 as amended: `listen_and_accept` calls `accept` exactly once
and treats any failure of that single call — signal interruption
included, since `errno` is never inspected — as a failed acceptance,
regardless of what later accept calls would have produced; only a
first accept that succeeds yields a connection. -/
theorem accept_no_retry (port : Int) (rest : List AcceptOutcome) :
    (listen_and_accept port true true true
        (AcceptOutcome.errInterrupted :: rest)).connected = false ∧
      (listen_and_accept port true true true
        (AcceptOutcome.errOther :: rest)).connected = false ∧
      (listen_and_accept port true true true
        (AcceptOutcome.accepted :: rest)).connected = true := by
  refine ⟨?_, ?_, ?_⟩ <;> simp [listen_and_accept]

/-- Claim C7: Termination on peer close — as soon as the pump observes
a zero-length channel read, the session ends with exit status 0 and no
further send is performed (and nothing further is printed), whatever
input or socket events would have followed. -/
theorem terminate_on_peer_close (buf : List Nat) (es : List Event) :
    runSession buf (Event.recvClosed :: es) = ⟨some 0, [], []⟩ := rfl

/-- Claim C8: Malformed invocation — on any argv matching neither the
listen form nor the connect form, the process prints usage text to the
error stream, performs no network activity, sends and prints nothing,
and exits with status 1. -/
theorem malformed_usage (args : List String) (stoi : String → Int) (w : World)
    (h : parseArgs args = ParsedCommand.malformed) :
    runMain args stoi w = ⟨some 1, true, false, [], []⟩ := by
  unfold runMain
  rw [h]

theorem malformed_usage_witness :
    parseArgs ["--bogus"] = ParsedCommand.malformed ∧
      runMain ["--bogus"] (fun _ => 0)
        ⟨true, true, true, [AcceptOutcome.accepted], true, true, []⟩ =
        ⟨some 1, true, false, [], []⟩ :=
  ⟨by decide,
    malformed_usage ["--bogus"] (fun _ => 0)
      ⟨true, true, true, [AcceptOutcome.accepted], true, true, []⟩ (by decide)⟩

theorem extract_withDelims (ms : List (List Nat)) (r : List Nat)
    (hms : ∀ m ∈ ms, 10 ∉ m) (hr : 10 ∉ r) :
    extractMessages (withDelims ms ++ r) = (ms, r) := by
  revert hms
  induction ms with
  | nil =>
    intro _
    simpa [withDelims] using extract_of_no_nl hr
  | cons m ms ih =>
    intro hms
    have hm : 10 ∉ m := hms m (by simp)
    have hrec := ih (fun x hx => hms x (by simp [hx]))
    have hsplit : withDelims (m :: ms) ++ r = m ++ 10 :: (withDelims ms ++ r) := by
      simp [withDelims]
    rw [hsplit, extract_no_nl_append_nl _ hm, hrec]

/-- Claim C9: Empty messages are legal outputs — every framer input
decomposes uniquely as a list of delimiter-terminated segments `ms`
(each newline-free, possibly empty) followed by a newline-free
remainder `r`, and the extraction yields exactly `ms`: an empty
message for each empty segment, wherever it occurs, so a leading
delimiter and each pair of consecutive delimiters — anywhere in the
input — produce empty messages; and the pump emits every one of those
messages to output, the empty ones like any other, in arrival order. -/
theorem empty_messages_emitted (ms : List (List Nat)) (r : List Nat) (es : List Event)
    (hms : ∀ m ∈ ms, 10 ∉ m) (hr : 10 ∉ r) :
    extractMessages (withDelims ms ++ r) = (ms, r) ∧
      (runSession [] (Event.recvData (withDelims ms ++ r) :: es)).printed =
        ms ++ (runSession r es).printed := by
  have hext := extract_withDelims ms r hms hr
  refine ⟨hext, ?_⟩
  simp only [runSession, List.nil_append, hext]

theorem empty_messages_emitted_witness :
    (∀ m ∈ ([[], [120], []] : List (List Nat)), 10 ∉ m) ∧ (10 ∉ ([122] : List Nat)) ∧
      (extractMessages (withDelims [[], [120], []] ++ [122]) = ([[], [120], []], [122]) ∧
        (runSession [] (Event.recvData (withDelims [[], [120], []] ++ [122]) :: [])).printed =
          [[], [120], []] ++ (runSession [122] []).printed) :=
  ⟨by decide, by decide,
    empty_messages_emitted [[], [120], []] [122] [] (by decide) (by decide)⟩

/-- Claim C10: Port truncation modulo 2^16 — in both establishers the
port stored into the socket address is the parsed integer narrowed
through the unsigned 16-bit cast, that is, reduced modulo 2^16 with no
range validation; consequently an out-of-range argument silently
addresses a different port, e.g. 70000 is used as port 4464. -/
theorem port_truncation :
    (∀ (p : Int) (pOk cOk : Bool),
        (connect_to_peer p true pOk cOk).sinPort = some ((p % 65536).toNat)) ∧
      (∀ (p : Int) (bOk lOk : Bool) (accs : List AcceptOutcome),
        (listen_and_accept p true bOk lOk accs).sinPort = some ((p % 65536).toNat)) ∧
      (connect_to_peer 70000 true true true).sinPort = some 4464 ∧
      (4464 : Nat) ≠ 70000 := by
  refine ⟨?_, ?_, by decide, by decide⟩
  · intro p pOk cOk
    cases pOk <;> cases cOk <;> simp [connect_to_peer, portUsed]
  · intro p bOk lOk accs
    rcases accs with _ | ⟨a, rest⟩
    · cases bOk <;> cases lOk <;> simp [listen_and_accept, portUsed, List.head?]
    · cases a <;> cases bOk <;> cases lOk <;> simp [listen_and_accept, portUsed, List.head?]

end TcpPeer
